import Mathlib

/-
Verification of the TinkerCAD-to-ThingsBoard telemetry bridge.

This file is a shallow embedding of the bridge's core components, translated
from the Python sources:
  * src/data_processor.py      (DataProcessor: streaming JSON-record extractor)
  * src/thingsboard_client.py  (ThingsBoardClient: HTTP telemetry sink client)
  * src/main.py                (RateLimiter and the run_bridge polling loop)
  * src/browser_automation.py  (SerialMonitor.get_new_content delta tracking)

Modelling conventions:
  * Text streams are `List Char`.
  * Wall-clock time (`time.time()` / `datetime.now()`) is an explicit rational
    input; `time.sleep(d)` is modelled as advancing the clock by exactly `d`.
  * Network I/O performed by `requests.post` is modelled by an `HttpOutcome`
    input describing what the call observably did (the final response status
    and body, a timeout, a connection error, or some other exception).
  * Python floats are modelled by `ℚ`; the claims under study only concern
    the arithmetic formulas, not IEEE rounding.
-/

namespace Bridge

/-! ## JSON values and a model of Python `json.loads`

`DataProcessor._parse_json` calls `json.loads` on candidate spans.  We embed
a recursive-descent parser for the grammar accepted by Python's default
`json.loads`: RFC 8259 JSON plus the constants `NaN`, `Infinity` and
`-Infinity`.  Numeric tokens are kept as their source lexeme (no claim in
this development inspects numeric values, only parse success/failure and
object structure).  A `\uXXXX` escape denoting a surrogate code unit is
mapped to U+FFFD because a Lean `Char` cannot hold a surrogate; no claim
involves such escapes.  Duplicate object keys follow Python `dict` semantics:
the first occurrence keeps its position, the last occurrence wins the value.
-/

inductive JsonValue where
  | null : JsonValue
  | bool (b : Bool) : JsonValue
  | num (lexeme : String) : JsonValue
  | str (s : String) : JsonValue
  | arr (elements : List JsonValue) : JsonValue
  | obj (members : List (String × JsonValue)) : JsonValue

/-- A parsed JSON object, the Python `dict` returned by `_parse_json`. -/
abbrev Dict := List (String × JsonValue)

/-- Convenience: the character list of a string literal. -/
def chars (s : String) : List Char := s.data

/-- JSON whitespace as skipped by Python's decoder: space, tab, newline, CR. -/
def isJsonWs (c : Char) : Bool :=
  c == ' ' || c == '\t' || c == '\n' || c == '\r'

/-- Drop leading JSON whitespace. -/
def skipWs : List Char → List Char
  | [] => []
  | c :: cs => if isJsonWs c then skipWs cs else c :: cs

/-- Python `dict` insertion `d[k] = v`: first occurrence keeps its position,
the stored value is the most recent one. -/
def insertKey : Dict → String → JsonValue → Dict
  | [], k, v => [(k, v)]
  | (k', v') :: rest, k, v =>
    if k' = k then (k', v) :: rest else (k', v') :: insertKey rest k v

/-- Value of a hexadecimal digit. -/
def hexVal (c : Char) : Option Nat :=
  if '0' ≤ c ∧ c ≤ '9' then some (c.toNat - '0'.toNat)
  else if 'a' ≤ c ∧ c ≤ 'f' then some (c.toNat - 'a'.toNat + 10)
  else if 'A' ≤ c ∧ c ≤ 'F' then some (c.toNat - 'A'.toNat + 10)
  else none

/-- Short (single-character) string escapes accepted by the JSON grammar. -/
def escChar : Char → Option Char
  | '"' => some '"'
  | '\\' => some '\\'
  | '/' => some '/'
  | 'b' => some (Char.ofNat 8)
  | 'f' => some (Char.ofNat 12)
  | 'n' => some '\n'
  | 'r' => some '\r'
  | 't' => some '\t'
  | _ => none

/-- Body of a JSON string after the opening quote, in Python's strict mode:
returns the decoded characters and the input after the closing quote.
Unescaped control characters (code < 32) are rejected. -/
def parseStringBody : List Char → Option (List Char × List Char)
  | [] => none
  | '"' :: rest => some ([], rest)
  | '\\' :: 'u' :: a :: b :: c :: d :: rest =>
    match hexVal a, hexVal b, hexVal c, hexVal d with
    | some ha, some hb, some hc, some hd =>
      let code := ((ha * 16 + hb) * 16 + hc) * 16 + hd
      let ch := if code < 55296 ∨ (57344 ≤ code ∧ code < 1114112)
        then Char.ofNat code else Char.ofNat 65533
      (parseStringBody rest).map (fun p => (ch :: p.1, p.2))
    | _, _, _, _ => none
  | '\\' :: e :: rest =>
    match escChar e with
    | none => none
    | some c => (parseStringBody rest).map (fun p => (c :: p.1, p.2))
  | c :: rest =>
    if c.toNat < 32 then none
    else (parseStringBody rest).map (fun p => (c :: p.1, p.2))

/-- Take a maximal run of decimal digits. -/
def takeDigits : List Char → List Char × List Char
  | [] => ([], [])
  | c :: cs =>
    if c.isDigit then
      let p := takeDigits cs
      (c :: p.1, p.2)
    else ([], c :: cs)

/-- Optional fraction part `.digits+` of a JSON number. -/
def parseFrac : List Char → Option (List Char × List Char)
  | '.' :: cs =>
    match takeDigits cs with
    | ([], _) => none
    | (ds, r) => some ('.' :: ds, r)
  | s => some ([], s)

/-- Optional exponent part `[eE][+-]?digits+` of a JSON number. -/
def parseExp : List Char → Option (List Char × List Char)
  | [] => some ([], [])
  | c :: cs =>
    if c = 'e' ∨ c = 'E' then
      let sp : List Char × List Char :=
        match cs with
        | '+' :: r => (['+'], r)
        | '-' :: r => (['-'], r)
        | _ => ([], cs)
      match takeDigits sp.2 with
      | ([], _) => none
      | (ds, r) => some (c :: (sp.1 ++ ds), r)
    else some ([], c :: cs)

/-- A JSON number token `-?(0|[1-9][0-9]*)(\.[0-9]+)?([eE][+-]?[0-9]+)?`,
returned as its lexeme. -/
def parseNumber (s : List Char) : Option (List Char × List Char) :=
  let sp : List Char × List Char :=
    match s with
    | '-' :: rest => (['-'], rest)
    | _ => ([], s)
  match sp.2 with
  | [] => none
  | c :: cs =>
    if c = '0' then
      match parseFrac cs with
      | none => none
      | some (f, r1) =>
        match parseExp r1 with
        | none => none
        | some (e, r2) => some (sp.1 ++ [c] ++ f ++ e, r2)
    else if c.isDigit then
      match takeDigits cs with
      | (ds, r0) =>
        match parseFrac r0 with
        | none => none
        | some (f, r1) =>
          match parseExp r1 with
          | none => none
          | some (e, r2) => some (sp.1 ++ (c :: ds) ++ f ++ e, r2)
    else none

mutual

/-- One JSON value, starting exactly at the head of the input (callers skip
whitespace first).  The fuel decreases on every nested parse; since each
recursive call is preceded by consuming at least one input character,
`length + 1` fuel always suffices. -/
def parseValue : Nat → List Char → Option (JsonValue × List Char)
  | 0, _ => none
  | fuel + 1, s =>
    match s with
    | '"' :: rest =>
      (parseStringBody rest).map (fun p => (JsonValue.str (String.mk p.1), p.2))
    | '{' :: rest =>
      (match skipWs rest with
       | '}' :: r => some (JsonValue.obj [], r)
       | s' => parseMembers fuel [] s')
    | '[' :: rest =>
      (match skipWs rest with
       | ']' :: r => some (JsonValue.arr [], r)
       | s' => parseElements fuel [] s')
    | 'n' :: 'u' :: 'l' :: 'l' :: rest => some (JsonValue.null, rest)
    | 't' :: 'r' :: 'u' :: 'e' :: rest => some (JsonValue.bool true, rest)
    | 'f' :: 'a' :: 'l' :: 's' :: 'e' :: rest => some (JsonValue.bool false, rest)
    | 'N' :: 'a' :: 'N' :: rest => some (JsonValue.num ("NaN"), rest)
    | 'I' :: 'n' :: 'f' :: 'i' :: 'n' :: 'i' :: 't' :: 'y' :: rest =>
      some (JsonValue.num ("Infinity"), rest)
    | '-' :: 'I' :: 'n' :: 'f' :: 'i' :: 'n' :: 'i' :: 't' :: 'y' :: rest =>
      some (JsonValue.num ("-Infinity"), rest)
    | _ => (parseNumber s).map (fun p => (JsonValue.num (String.mk p.1), p.2))

/-- Members of a JSON object after the opening brace (nonempty case):
`"key" ws : ws value ws (, ws … | })`. -/
def parseMembers : Nat → Dict → List Char → Option (JsonValue × List Char)
  | 0, _, _ => none
  | fuel + 1, acc, s =>
    match s with
    | '"' :: rest =>
      (match parseStringBody rest with
       | none => none
       | some (kcs, r1) =>
         match skipWs r1 with
         | ':' :: r2 =>
           (match parseValue fuel (skipWs r2) with
            | none => none
            | some (v, r3) =>
              let acc' := insertKey acc (String.mk kcs) v
              match skipWs r3 with
              | ',' :: r4 => parseMembers fuel acc' (skipWs r4)
              | '}' :: r4 => some (JsonValue.obj acc', r4)
              | _ => none)
         | _ => none)
    | _ => none

/-- Elements of a JSON array after the opening bracket (nonempty case). -/
def parseElements : Nat → List JsonValue → List Char → Option (JsonValue × List Char)
  | 0, _, _ => none
  | fuel + 1, acc, s =>
    match parseValue fuel s with
    | none => none
    | some (v, r1) =>
      match skipWs r1 with
      | ',' :: r2 => parseElements fuel (acc ++ [v]) (skipWs r2)
      | ']' :: r2 => some (JsonValue.arr (acc ++ [v]), r2)
      | _ => none

end

/-- Python `json.loads`: skip surrounding whitespace, parse exactly one value,
reject trailing garbage.  `none` models a raised `JSONDecodeError`. -/
def json_loads (s : List Char) : Option JsonValue :=
  match parseValue (s.length + 1) (skipWs s) with
  | some (v, rest) => if (skipWs rest).isEmpty then some v else none
  | none => none

/-! ## The candidate-span scanner

`DataProcessor.add_chunk` runs `re.finditer(r"\x7b.*?\x7d", buffer, re.DOTALL)`.
For this pattern the matching semantics are: scanning left to right, a match
starts at the next `{` that is followed (anywhere later, newlines included)
by a `}`; the non-greedy `.*?` makes the match end at the first `}` after
that `{`; the scan then resumes immediately after the consumed `}`, so the
matches are non-overlapping and in order.  We embed this as a left-to-right
character automaton.  Its state records whether we are inside a candidate
span (`acc`, the span's characters so far, most recent first), the characters
seen since the end of the last completed match (`since`, most recent first,
used to recover `buffer[end_of_last_match:]`), and the completed matches
(`spans`, most recent first). -/

structure ScanSt where
  acc : Option (List Char)
  since : List Char
  spans : List (List Char)
deriving DecidableEq

/-- One character step of the span scanner. -/
def scanStep (st : ScanSt) (c : Char) : ScanSt :=
  match st.acc with
  | some a =>
    if c = '}' then
      { acc := none, since := [], spans := (('}' :: a).reverse) :: st.spans }
    else
      { st with acc := some (c :: a), since := c :: st.since }
  | none =>
    if c = '{' then
      { st with acc := some ['{'], since := c :: st.since }
    else
      { st with since := c :: st.since }

/-- Scanner start state: outside any span, nothing seen. -/
def scanInit : ScanSt := { acc := none, since := [], spans := [] }

/-- Run the scanner over a whole buffer. -/
def scanAll (s : List Char) : ScanSt := s.foldl scanStep scanInit

/-- `jsonSpans buffer = (matches, buffer[end_of_last_match:])`: the list of
candidate spans found by `JSON_PATTERN.finditer(buffer)` in order, together
with the text after the end of the last match (the whole buffer when there
is no match). -/
def jsonSpans (s : List Char) : List (List Char) × List Char :=
  ((scanAll s).spans.reverse, (scanAll s).since.reverse)

/-! ## DataProcessor (src/data_processor.py) -/

structure DataProcessor where
  buffer : List Char
  total_received : Nat
  total_parsed : Nat
  total_invalid : Nat
deriving DecidableEq

/-- `DataProcessor.__init__`. -/
def DataProcessor.init : DataProcessor :=
  { buffer := [], total_received := 0, total_parsed := 0, total_invalid := 0 }

/-- `DataProcessor._parse_json`: `json.loads`, accept only a `dict` with at
least one key; any parse error (a raised exception in Python) yields `none`. -/
def parse_json (text : List Char) : Option Dict :=
  match json_loads text with
  | some (JsonValue.obj members) => if members.isEmpty then none else some members
  | some _ => none
  | none => none

/-- The `for match in matches:` loop body of `add_chunk`: per candidate span,
increment `total_received`; on parse success append the object and increment
`total_parsed`, otherwise increment `total_invalid`. -/
def processSpans : DataProcessor → List (List Char) → List Dict → DataProcessor × List Dict
  | dp, [], acc => (dp, acc)
  | dp, s :: rest, acc =>
    match parse_json s with
    | some obj =>
      processSpans
        { dp with total_received := dp.total_received + 1,
                  total_parsed := dp.total_parsed + 1 }
        rest (acc ++ [obj])
    | none =>
      processSpans
        { dp with total_received := dp.total_received + 1,
                  total_invalid := dp.total_invalid + 1 }
        rest acc

/-- `DataProcessor.add_chunk`: append the chunk to the buffer, find all
candidate spans; if any were found, remember `buffer[end_of_last:]`, process
every span, and replace the buffer by the remaining text; otherwise leave
the (extended) buffer as is and return no objects. -/
def add_chunk (dp : DataProcessor) (text : List Char) : DataProcessor × List Dict :=
  let buffer := dp.buffer ++ text
  let scanned := jsonSpans buffer
  if scanned.1.isEmpty then
    ({ dp with buffer := buffer }, [])
  else
    let p := processSpans { dp with buffer := buffer } scanned.1 []
    ({ p.1 with buffer := scanned.2 }, p.2)

/-- `DataProcessor.clear_buffer`. -/
def clear_buffer (dp : DataProcessor) : DataProcessor :=
  { dp with buffer := [] }

/-- The dictionary returned by `DataProcessor.get_stats`. -/
structure ProcessorStats where
  total_received : Nat
  total_parsed : Nat
  total_invalid : Nat
  parse_rate : ℚ
  buffer_size : Nat
deriving DecidableEq

/-- `DataProcessor.get_stats`: a pure function of the current state (the
Python method builds a fresh dict and mutates nothing). -/
def get_stats (dp : DataProcessor) : ProcessorStats :=
  { total_received := dp.total_received
    total_parsed := dp.total_parsed
    total_invalid := dp.total_invalid
    parse_rate :=
      if dp.total_received > 0 then
        (dp.total_parsed : ℚ) / (dp.total_received : ℚ) * 100
      else 0
    buffer_size := dp.buffer.length }

/-- A whole run of the extractor: feed a list of chunks through `add_chunk`
in order, concatenating the returned record sequences. -/
def processChunks : DataProcessor → List (List Char) → DataProcessor × List Dict
  | dp, [] => (dp, [])
  | dp, t :: ts =>
    let p := add_chunk dp t
    let q := processChunks p.1 ts
    (q.1, p.2 ++ q.2)

/-! ## ThingsBoardClient (src/thingsboard_client.py)

`send_telemetry` performs one `requests.post`.  What the network did is an
input of the model: either a final HTTP response (after `requests`' automatic
redirect following) with a status code and body, or one of the exception
classes caught by the method.  `datetime.now()` at the moment the response
arrives is the explicit `now` argument. -/

inductive HttpOutcome where
  | response (status : Nat) (body : String) : HttpOutcome
  | timeout : HttpOutcome
  | connError : HttpOutcome
  | otherError : HttpOutcome
deriving DecidableEq

structure ThingsBoardClient where
  total_sent : Nat
  total_failed : Nat
  last_send_time : Option ℚ
deriving DecidableEq

/-- Fresh client statistics state (`ThingsBoardClient.__init__`). -/
def ThingsBoardClient.init : ThingsBoardClient :=
  { total_sent := 0, total_failed := 0, last_send_time := none }

/-- `requests.Response.ok`: true iff `raise_for_status()` would not raise,
i.e. iff the status code is not in 400..599.  (Note: this is wider than
"2xx"; e.g. a 304 response is `ok`.) -/
def respOk (status : Nat) : Bool :=
  decide (¬ (400 ≤ status ∧ status < 600))

/-- `ThingsBoardClient.send_telemetry(data, timeout)`: returns the updated
client state and the boolean result.  The `data` and `timeoutSec` arguments
do not influence the modelled state transition (they only shape the request);
the function is total — every failure mode of the POST resolves to `false`. -/
def send_telemetry (c : ThingsBoardClient) (data : Dict) (timeoutSec : Nat)
    (outcome : HttpOutcome) (now : ℚ) : ThingsBoardClient × Bool :=
  match data, timeoutSec, outcome with
  | _, _, HttpOutcome.response status _ =>
    let c := { c with last_send_time := some now }
    if respOk status then
      ({ c with total_sent := c.total_sent + 1 }, true)
    else
      ({ c with total_failed := c.total_failed + 1 }, false)
  | _, _, HttpOutcome.timeout =>
    ({ c with total_failed := c.total_failed + 1 }, false)
  | _, _, HttpOutcome.connError =>
    ({ c with total_failed := c.total_failed + 1 }, false)
  | _, _, HttpOutcome.otherError =>
    ({ c with total_failed := c.total_failed + 1 }, false)

/-! ## RateLimiter (src/main.py, class RateLimiter)

`wait_if_needed` reads `time.time()` (the `now` argument), sleeps for
`min_interval - elapsed` when that is positive, and then stores a fresh
`time.time()` reading as `last_send_time`.  Sleeping is modelled as advancing
the clock by exactly the requested duration, so the reading taken after the
sleep is `now + slept`.  The function returns the slept duration alongside
the new state. -/

structure RateLimiter where
  min_interval : ℚ
  last_send_time : ℚ
deriving DecidableEq

/-- `RateLimiter.__init__(max_hz)`. -/
def RateLimiter.init (max_hz : ℚ) : RateLimiter :=
  { min_interval := 1 / max_hz, last_send_time := 0 }

/-- `RateLimiter.wait_if_needed`. -/
def wait_if_needed (rl : RateLimiter) (now : ℚ) : RateLimiter × ℚ :=
  let elapsed := now - rl.last_send_time
  let wait_time := rl.min_interval - elapsed
  let slept := if wait_time > 0 then wait_time else 0
  ({ rl with last_send_time := now + slept }, slept)

/-! ## SerialMonitor (src/browser_automation.py) -/

structure SerialMonitor where
  last_text_length : Nat
  total_reads : Nat
deriving DecidableEq

/-- `SerialMonitor.get_new_content`: the producer's currently visible text
(or `None` on a read error) is the input.  On a successful read, a shrink of
the visible text resets the tracked length to 0 before slicing, so the whole
text is returned as new content; the tracked length is then set to the
current length. -/
def get_new_content (m : SerialMonitor) (full_text : Option (List Char)) :
    SerialMonitor × List Char :=
  match full_text with
  | none => (m, [])
  | some t =>
    let total_reads := m.total_reads + 1
    let current_length := t.length
    let last :=
      if current_length < m.last_text_length then 0 else m.last_text_length
    let new_content := t.drop last
    ({ last_text_length := current_length, total_reads := total_reads },
     new_content)

/-! ## The streaming loop of run_bridge (src/main.py)

State of the `while True` monitoring loop, and its per-tick environment
inputs.  For each record extracted during a tick the environment supplies
the `time.time()` reading at the start of `wait_if_needed`, the network
outcome of the POST, and the `datetime.now()` reading when a response
arrives; if the supplied per-tick list is shorter than the number of
extracted records, an inert default is used (the choice is immaterial to
the claims, which quantify over the environment). -/

structure LoopState where
  monitor : SerialMonitor
  processor : DataProcessor
  limiter : RateLimiter
  client : ThingsBoardClient
  message_count : Nat
deriving DecidableEq

/-- Environment of a single `send_telemetry` call made by the loop. -/
structure SendEnv where
  callTime : ℚ
  outcome : HttpOutcome
  recvTime : ℚ
deriving DecidableEq

/-- One record together with its send environment. -/
structure RecordSend where
  data : Dict
  env : SendEnv

/-- Environment of one polling tick: the producer's visible text (the
`read_serial_output` result) and the per-record send environments. -/
structure TickInput where
  full_text : Option (List Char)
  sends : List SendEnv

/-- Pair the records extracted in a tick with their send environments. -/
def withEnv : List Dict → List SendEnv → List RecordSend
  | [], _ => []
  | d :: ds, [] =>
    { data := d, env := { callTime := 0, outcome := HttpOutcome.otherError, recvTime := 0 } }
      :: withEnv ds []
  | d :: ds, e :: es => { data := d, env := e } :: withEnv ds es

/-- The `for data in json_objects:` loop of `run_bridge`: throttle, send,
and increment the running `message_count` only when the send succeeded. -/
def processRecords : RateLimiter → ThingsBoardClient → Nat → List RecordSend →
    RateLimiter × ThingsBoardClient × Nat
  | rl, tb, count, [] => (rl, tb, count)
  | rl, tb, count, r :: rest =>
    let rl' := (wait_if_needed rl r.env.callTime).1
    let sent := send_telemetry tb r.data 8 r.env.outcome r.env.recvTime
    processRecords rl' sent.1 (if sent.2 then count + 1 else count) rest

/-- One iteration of the `while True` body: read new serial content, and if
it is non-empty, extract records and deliver each of them. -/
def tick (st : LoopState) (inp : TickInput) : LoopState :=
  let read := get_new_content st.monitor inp.full_text
  if read.2.isEmpty then
    { st with monitor := read.1 }
  else
    let extracted := add_chunk st.processor read.2
    let delivered :=
      processRecords st.limiter st.client st.message_count
        (withEnv extracted.2 inp.sends)
    { monitor := read.1, processor := extracted.1, limiter := delivered.1,
      client := delivered.2.1, message_count := delivered.2.2 }

/-- How the monitoring loop ended (it sits in a `try` whose handlers are
outside the `while`): still running when the supplied events are exhausted,
`interrupted` on `KeyboardInterrupt` (stats printed, cleanup, return True),
`errored` when an exception escapes a tick (logged once, cleanup, return
True — the loop is NOT resumed). -/
inductive LoopExit where
  | running : LoopExit
  | interrupted : LoopExit
  | errored : LoopExit
deriving DecidableEq

/-- External events driving the loop: a normal tick with its inputs, an
exception raised somewhere inside the tick body, or a `KeyboardInterrupt`. -/
inductive TickEvent where
  | content (inp : TickInput) : TickEvent
  | raise : TickEvent
  | interrupt : TickEvent

/-- The `try: while True: ... except KeyboardInterrupt: ... except Exception:`
block of `run_bridge`.  Both exception handlers are attached to the whole
loop, so the first exceptional event ends the iteration; remaining events
are never processed. -/
def run_loop : LoopState → List TickEvent → LoopState × LoopExit
  | st, [] => (st, LoopExit.running)
  | st, TickEvent.content inp :: rest => run_loop (tick st inp) rest
  | st, TickEvent.raise :: _ => (st, LoopExit.errored)
  | st, TickEvent.interrupt :: _ => (st, LoopExit.interrupted)

/-! ## Statements of the spec's claims

Each `ClaimCn` below is a direct formalisation of the corresponding claim of
the specification, used to settle the claim against the embedded code. -/

/-- Text containing no brace characters (the claim's separator condition). -/
def BraceFree (s : List Char) : Prop := ∀ c ∈ s, c ≠ '{' ∧ c ≠ '}'

/-- `sep0 ++ obj1 ++ sep1 ++ … ++ objN ++ sepN` for `seps.length = objs.length + 1`. -/
def joinSepsObjs : List (List Char) → List (List Char) → List Char
  | s :: ss, o :: os => s ++ o ++ joinSepsObjs ss os
  | s :: _, [] => s
  | [], _ => []

/-- Claim C1 (chunking invariance), as stated: whenever the concatenation of
the chunks decomposes into N syntactically valid non-empty JSON objects
(texts accepted by `_parse_json`) separated by brace-free text, feeding the
chunks to a fresh extractor emits exactly those N records in order, however
the concatenation was split. -/
def ClaimC1 : Prop :=
  ∀ (chunks seps objs : List (List Char)) (recs : List Dict),
    seps.length = objs.length + 1 →
    (∀ s ∈ seps, BraceFree s) →
    List.Forall₂ (fun o r => parse_json o = some r) objs recs →
    chunks.flatten = joinSepsObjs seps objs →
    (processChunks DataProcessor.init chunks).2 = recs

/-- The amended C1 object shape: the object's text is itself a single
brace-delimited candidate span — it starts with `{`, ends with `}`, and its
interior contains no `}` (ruling out nested objects and `\x7d` inside string
values, the documented limitation of non-greedy brace matching). -/
def SpanShaped (o : List Char) : Prop :=
  ∃ interior, o = '{' :: (interior ++ ['}']) ∧ '}' ∉ interior

/-- Claim C2 (tick-level fault isolation), as stated: an exception event is
absorbed and the loop behaves as if it continued with the remaining events. -/
def ClaimC2 : Prop :=
  ∀ (st : LoopState) (rest : List TickEvent),
    run_loop st (TickEvent.raise :: rest) = run_loop st rest

/-- Has the producer's visible text shrunk relative to the tracked length? -/
def shrinkDetected (st : LoopState) (inp : TickInput) : Bool :=
  match inp.full_text with
  | some t => decide (t.length < st.monitor.last_text_length)
  | none => false

/-- Claim C3's asserted tick behaviour, following the spec's words: a
detected stream discontinuity triggers `extractor.clear()` before any
further text is fed to `add_chunk`. -/
def tick_claimed (st : LoopState) (inp : TickInput) : LoopState :=
  let st' :=
    if shrinkDetected st inp then { st with processor := clear_buffer st.processor }
    else st
  tick st' inp

/-- Claim C3 (discontinuity reset), as stated: every tick behaves like the
clear-on-shrink variant. -/
def ClaimC3 : Prop := ∀ (st : LoopState) (inp : TickInput), tick st inp = tick_claimed st inp

/-- Claim C7 (pipeline sent-message counter), as stated: the running counter
grows by one per delivery attempt, regardless of the attempt's outcome. -/
def ClaimC7 : Prop :=
  ∀ (rl : RateLimiter) (tb : ThingsBoardClient) (count : Nat) (rs : List RecordSend),
    (processRecords rl tb count rs).2.2 = count + rs.length

/-- Does this outcome make `send_telemetry` return `true`?  (Success depends
only on the network outcome, not on the client state.) -/
def outcomeSuccess : HttpOutcome → Bool
  | HttpOutcome.response status _ => respOk status
  | _ => false

/-- Claim C8 (last-send timestamp frame condition), as stated: a failing send
attempt leaves the stored last-send timestamp unchanged, and a successful one
records the current time. -/
def ClaimC8 : Prop :=
  ∀ (c : ThingsBoardClient) (data : Dict) (tmo : Nat) (outcome : HttpOutcome) (now : ℚ),
    ((send_telemetry c data tmo outcome now).2 = true →
      (send_telemetry c data tmo outcome now).1.last_send_time = some now) ∧
    ((send_telemetry c data tmo outcome now).2 = false →
      (send_telemetry c data tmo outcome now).1.last_send_time = c.last_send_time)

/-- Claim C10's parse-rate formula, as stated: `parse_rate = parsed/received`
(0 when nothing was received). -/
def ClaimC10 : Prop :=
  ∀ dp : DataProcessor,
    (get_stats dp).parse_rate =
      if dp.total_received > 0 then (dp.total_parsed : ℚ) / (dp.total_received : ℚ)
      else 0

/-! ## Proof-support definitions -/

/-- Invariant of the span scanner, relating a state to the input consumed so
far: the consumed text is (something ending in the last completed span) ++
(the reversal of `since`); when no span has completed yet that something is
empty; and while inside a span, the span's characters so far are the most
recent characters of `since`. -/
def ScanConsistent (consumed : List Char) (st : ScanSt) : Prop :=
  (∃ A, consumed = A ++ st.since.reverse ∧ (st.spans = [] → A = []) ∧
    ∀ sp tl, st.spans = sp :: tl → ∃ B, A = B ++ sp) ∧
  (∀ a, st.acc = some a → ∃ r, st.since = a ++ r)

/-! # Theorems

First the scanner lemmas, then the component lemmas, then one theorem per
claim (with its witness or counterexample where applicable). -/

/-- Folding the scanner over an appended buffer continues from the reached state. -/
theorem scanAll_append (a b : List Char) :
    scanAll (a ++ b) = List.foldl scanStep (scanAll a) b := by
  simp [scanAll, List.foldl_append]

/-- Folding the scanner over one more character is one scanner step. -/
theorem scanAll_concat (s : List Char) (c : Char) :
    scanAll (s ++ [c]) = scanStep (scanAll s) c := by
  simp [scanAll, List.foldl_append]

/-- The completed-spans component of the scanner state is only ever pushed
to: running from a state with recorded spans equals running from the same
state with no recorded spans and appending them afterwards. -/
theorem foldl_scanStep_spans (b : List Char) :
    ∀ (acc : Option (List Char)) (since : List Char) (spans : List (List Char)),
    List.foldl scanStep ⟨acc, since, spans⟩ b =
      { acc := (List.foldl scanStep ⟨acc, since, []⟩ b).acc,
        since := (List.foldl scanStep ⟨acc, since, []⟩ b).since,
        spans := (List.foldl scanStep ⟨acc, since, []⟩ b).spans ++ spans } := by
  induction b with
  | nil => intro acc since spans; simp
  | cons c b ih =>
    intro acc since spans
    simp only [List.foldl_cons]
    cases acc with
    | some a =>
      by_cases hc : c = '}'
      · simp only [scanStep, hc, if_true, reduceIte]
        rw [ih none [] ((('}' :: a).reverse) :: spans), ih none [] [('}' :: a).reverse]]
        simp
      · simp only [scanStep, hc, reduceIte]
        rw [ih (some (c :: a)) (c :: since) spans]
    | none =>
      by_cases hc : c = '{'
      · simp only [scanStep, hc, reduceIte]
        rw [ih (some ['{']) ('{' :: since) spans]
      · simp only [scanStep, hc, reduceIte]
        rw [ih none (c :: since) spans]

/-- Re-scanning the text recorded since the last completed span reproduces
the scanner's position exactly, with no completed spans: the retained tail
of the buffer never holds an already-consumed match. -/
theorem rescan_since (s : List Char) :
    List.foldl scanStep scanInit (scanAll s).since.reverse =
      { acc := (scanAll s).acc, since := (scanAll s).since, spans := [] } := by
  induction s using List.reverseRecOn with
  | nil => rfl
  | append_singleton s c ih =>
    rw [scanAll_concat]
    rcases hst : (scanAll s).acc with _ | a
    · by_cases hc : c = '{'
      · simp only [scanStep, hst, hc, reduceIte]
        simp only [List.reverse_cons, List.foldl_append, ih, hst]
        simp [scanStep]
      · simp only [scanStep, hst, hc, reduceIte]
        simp only [List.reverse_cons, List.foldl_append, ih, hst]
        simp [scanStep, hc]
    · by_cases hc : c = '}'
      · simp only [scanStep, hst, hc, reduceIte]
        rfl
      · simp only [scanStep, hst, hc, reduceIte]
        simp only [List.reverse_cons, List.foldl_append, ih, hst]
        simp [scanStep, hc]

/-- Scanning `a ++ b` is scanning `a`, then scanning the retained tail of
`a` followed by `b`, collecting both span lists. -/
theorem scanAll_split (a b : List Char) :
    scanAll (a ++ b) =
      { acc := (scanAll ((scanAll a).since.reverse ++ b)).acc,
        since := (scanAll ((scanAll a).since.reverse ++ b)).since,
        spans := (scanAll ((scanAll a).since.reverse ++ b)).spans ++ (scanAll a).spans } := by
  have hq : scanAll ((scanAll a).since.reverse ++ b) =
      List.foldl scanStep
        { acc := (scanAll a).acc, since := (scanAll a).since, spans := [] } b := by
    rw [scanAll_append]
    rw [show scanAll (scanAll a).since.reverse =
      List.foldl scanStep scanInit (scanAll a).since.reverse from rfl]
    rw [rescan_since]
  rw [scanAll_append, hq]
  exact foldl_scanStep_spans b (scanAll a).acc (scanAll a).since (scanAll a).spans

/-- Decomposition of the candidate spans of an appended buffer. -/
theorem jsonSpans_append1 (a b : List Char) :
    (jsonSpans (a ++ b)).1 =
      (jsonSpans a).1 ++ (jsonSpans ((jsonSpans a).2 ++ b)).1 := by
  show (scanAll (a ++ b)).spans.reverse = _
  rw [scanAll_split a b]
  simp [jsonSpans]

/-- Decomposition of the retained tail of an appended buffer. -/
theorem jsonSpans_append2 (a b : List Char) :
    (jsonSpans (a ++ b)).2 = (jsonSpans ((jsonSpans a).2 ++ b)).2 := by
  show (scanAll (a ++ b)).since.reverse = _
  rw [scanAll_split a b]
  rfl

/-- The retained tail of a scan contains no candidate span. -/
theorem jsonSpans_rem_nospans (s : List Char) :
    (jsonSpans ((jsonSpans s).2)).1 = [] := by
  show (scanAll (scanAll s).since.reverse).spans.reverse = _
  rw [show scanAll (scanAll s).since.reverse =
    List.foldl scanStep scanInit (scanAll s).since.reverse from rfl]
  rw [rescan_since]
  rfl

/-- One scanner step preserves `ScanConsistent`. -/
theorem scanStep_consistent {s : List Char} {st : ScanSt} (c : Char)
    (h : ScanConsistent s st) : ScanConsistent (s ++ [c]) (scanStep st c) := by
  obtain ⟨⟨A, hA, hnil, hcons⟩, hacc⟩ := h
  rcases hst : st.acc with _ | a
  · by_cases hc : c = '{'
    · subst hc
      refine ⟨⟨A, ?_, ?_, ?_⟩, ?_⟩
      · simp [scanStep, hst, hA]
      · simp only [scanStep, hst, reduceIte]
        exact hnil
      · simp only [scanStep, hst, reduceIte]
        exact hcons
      · intro a' ha'
        simp only [scanStep, hst, reduceIte] at ha' ⊢
        cases ha'
        exact ⟨st.since, rfl⟩
    · refine ⟨⟨A, ?_, ?_, ?_⟩, ?_⟩
      · simp [scanStep, hst, hc, hA]
      · simp only [scanStep, hst, hc, reduceIte]
        exact hnil
      · simp only [scanStep, hst, hc, reduceIte]
        exact hcons
      · intro a' ha'
        simp only [scanStep, hst, hc, reduceIte] at ha'
        cases ha'
  · by_cases hc : c = '}'
    · subst hc
      obtain ⟨r, hr⟩ := hacc a hst
      refine ⟨⟨s ++ ['}'], by simp [scanStep, hst], ?_, ?_⟩, ?_⟩
      · simp only [scanStep, hst, reduceIte]
        intro hfalse
        cases hfalse
      · simp only [scanStep, hst, reduceIte]
        intro sp tl hsp
        obtain ⟨rfl, rfl⟩ : sp = ('}' :: a).reverse ∧ tl = st.spans := by
          cases hsp; exact ⟨rfl, rfl⟩
        refine ⟨A ++ r.reverse, ?_⟩
        rw [hA, hr]
        simp
      · intro a' ha'
        simp only [scanStep, hst, reduceIte] at ha'
        cases ha'
    · refine ⟨⟨A, ?_, ?_, ?_⟩, ?_⟩
      · simp [scanStep, hst, hc, hA]
      · simp only [scanStep, hst, hc, reduceIte]
        exact hnil
      · simp only [scanStep, hst, hc, reduceIte]
        exact hcons
      · intro a' ha'
        simp only [scanStep, hst, hc, reduceIte] at ha'
        obtain ⟨r, hr⟩ := hacc a hst
        cases ha'
        exact ⟨r, by simp [scanStep, hst, hc, hr]⟩

/-- The scanner state reached from any buffer is consistent with it. -/
theorem scanAll_consistent (s : List Char) : ScanConsistent s (scanAll s) := by
  induction s using List.reverseRecOn with
  | nil =>
    refine ⟨⟨[], rfl, fun _ => rfl, ?_⟩, ?_⟩
    · intro sp tl hsp
      simp [scanAll, scanInit] at hsp
    · intro a ha
      simp [scanAll, scanInit] at ha
  | append_singleton s c ih =>
    rw [scanAll_concat]
    exact scanStep_consistent c ih

/-- When a buffer has no candidate span, the whole buffer is retained. -/
theorem jsonSpans_nil_rem {s : List Char} (h : (jsonSpans s).1 = []) :
    (jsonSpans s).2 = s := by
  obtain ⟨⟨A, hA, hnil, _⟩, _⟩ := scanAll_consistent s
  have hsp : (scanAll s).spans = [] := by
    have := congrArg List.reverse h
    simpa [jsonSpans] using this
  show (scanAll s).since.reverse = s
  conv_rhs => rw [hA, hnil hsp]
  rw [List.nil_append]

/-- When candidate spans were found, the buffer splits as (text up to the
last span) ++ (last span) ++ (retained tail). -/
theorem jsonSpans_last_decomp {s : List Char} {pre : List (List Char)}
    {lastSpan : List Char} (h : (jsonSpans s).1 = pre ++ [lastSpan]) :
    ∃ A, s = A ++ lastSpan ++ (jsonSpans s).2 := by
  obtain ⟨⟨A, hA, _, hcons⟩, _⟩ := scanAll_consistent s
  have hsp : (scanAll s).spans = lastSpan :: pre.reverse := by
    have := congrArg List.reverse h
    simpa [jsonSpans] using this
  obtain ⟨B, hB⟩ := hcons lastSpan pre.reverse hsp
  refine ⟨B, ?_⟩
  show s = B ++ lastSpan ++ (scanAll s).since.reverse
  conv_lhs => rw [hA, hB]

/-- The accumulator of the span loop is a passive prefix of the output. -/
theorem processSpans_acc (xs : List (List Char)) :
    ∀ (dp : DataProcessor) (acc : List Dict),
    processSpans dp xs acc =
      ((processSpans dp xs []).1, acc ++ (processSpans dp xs []).2) := by
  induction xs with
  | nil => intro dp acc; simp [processSpans]
  | cons s xs ih =>
    intro dp acc
    cases hp : parse_json s with
    | some obj =>
      simp only [processSpans, hp]
      rw [ih _ (acc ++ [obj]), ih _ ([] ++ [obj])]
      simp
    | none =>
      simp only [processSpans, hp]
      rw [ih _ acc]

/-- The span loop never touches the buffer, and its counters do not depend
on the buffer. -/
theorem processSpans_buffer (xs : List (List Char)) :
    ∀ (dp : DataProcessor) (acc : List Dict) (X : List Char),
    processSpans { dp with buffer := X } xs acc =
      ({ (processSpans dp xs acc).1 with buffer := X },
       (processSpans dp xs acc).2) := by
  induction xs with
  | nil => intro dp acc X; simp [processSpans]
  | cons s xs ih =>
    intro dp acc X
    cases hp : parse_json s with
    | some obj =>
      simp only [processSpans, hp]
      exact ih { dp with total_received := dp.total_received + 1,
                         total_parsed := dp.total_parsed + 1 } (acc ++ [obj]) X
    | none =>
      simp only [processSpans, hp]
      exact ih { dp with total_received := dp.total_received + 1,
                         total_invalid := dp.total_invalid + 1 } acc X

/-- The span loop over an appended list is the two loops in sequence. -/
theorem processSpans_append (xs ys : List (List Char)) :
    ∀ (dp : DataProcessor) (acc : List Dict),
    processSpans dp (xs ++ ys) acc =
      processSpans (processSpans dp xs acc).1 ys (processSpans dp xs acc).2 := by
  induction xs with
  | nil => intro dp acc; simp [processSpans]
  | cons s xs ih =>
    intro dp acc
    cases hp : parse_json s with
    | some obj =>
      simp only [List.cons_append, processSpans, hp]
      exact ih _ (acc ++ [obj])
    | none =>
      simp only [List.cons_append, processSpans, hp]
      exact ih _ acc

/-- Effect of the span loop on outputs and counters: the emitted objects are
exactly the successfully parsed spans in order; `total_received` grows by the
number of spans, `total_parsed` by the number of emitted objects,
`total_invalid` by the number of rejected spans. -/
theorem processSpans_spec (xs : List (List Char)) :
    ∀ (dp : DataProcessor),
    (processSpans dp xs []).2 = xs.filterMap parse_json ∧
    (processSpans dp xs []).1.total_received = dp.total_received + xs.length ∧
    (processSpans dp xs []).1.total_parsed =
      dp.total_parsed + (xs.filterMap parse_json).length ∧
    (processSpans dp xs []).1.total_invalid =
      dp.total_invalid + (xs.length - (xs.filterMap parse_json).length) ∧
    (processSpans dp xs []).1.buffer = dp.buffer := by
  induction xs with
  | nil => intro dp; simp [processSpans]
  | cons s xs ih =>
    intro dp
    have hlen := List.length_filterMap_le parse_json xs
    cases hp : parse_json s with
    | some obj =>
      simp only [processSpans, hp]
      rw [processSpans_acc]
      obtain ⟨h1, h2, h3, h4, h5⟩ := ih
        { dp with total_received := dp.total_received + 1,
                  total_parsed := dp.total_parsed + 1 }
      refine ⟨?_, ?_, ?_, ?_, ?_⟩
      · simp [h1, List.filterMap_cons, hp]
      · simp at h2
        simp [h2, List.filterMap_cons, hp]
        omega
      · simp at h3
        simp [h3, List.filterMap_cons, hp]
        omega
      · simp at h4
        simp [h4, List.filterMap_cons, hp]
      · simpa using h5
    | none =>
      simp only [processSpans, hp]
      obtain ⟨h1, h2, h3, h4, h5⟩ := ih
        { dp with total_received := dp.total_received + 1,
                  total_invalid := dp.total_invalid + 1 }
      refine ⟨?_, ?_, ?_, ?_, ?_⟩
      · simp [h1, List.filterMap_cons, hp]
      · simp at h2
        simp [h2, List.filterMap_cons, hp]
        omega
      · simp at h3
        simp [h3, List.filterMap_cons, hp]
      · simp at h4
        simp [h4, List.filterMap_cons, hp]
        omega
      · simpa using h5

/-- Normal form of `add_chunk`: both branches of the `if matches:` test set
the buffer to the retained tail of the scan (when there is no match the
retained tail IS the whole extended buffer) and run the span loop (which is
the identity on an empty span list). -/
theorem add_chunk_eq (dp : DataProcessor) (text : List Char) :
    add_chunk dp text =
      ({ (processSpans dp (jsonSpans (dp.buffer ++ text)).1 []).1 with
          buffer := (jsonSpans (dp.buffer ++ text)).2 },
       (processSpans dp (jsonSpans (dp.buffer ++ text)).1 []).2) := by
  show (if (jsonSpans (dp.buffer ++ text)).1.isEmpty then _ else _) = _
  by_cases h : (jsonSpans (dp.buffer ++ text)).1 = []
  · rw [if_pos (by simp [h])]
    rw [h]
    simp only [processSpans]
    rw [jsonSpans_nil_rem h]
  · rw [if_neg (by simpa using h)]
    rw [processSpans_buffer]

/-- The buffer left by `add_chunk` never contains a complete candidate span. -/
theorem add_chunk_buffer_nospans (dp : DataProcessor) (text : List Char) :
    (jsonSpans ((add_chunk dp text).1.buffer)).1 = [] := by
  rw [add_chunk_eq]
  exact jsonSpans_rem_nospans (dp.buffer ++ text)

/-- Feeding one chunk and then another is the same as feeding their
concatenation: the states agree and the outputs concatenate. -/
theorem add_chunk_append (dp : DataProcessor) (t1 t2 : List Char) :
    add_chunk dp (t1 ++ t2) =
      ((add_chunk (add_chunk dp t1).1 t2).1,
       (add_chunk dp t1).2 ++ (add_chunk (add_chunk dp t1).1 t2).2) := by
  rw [add_chunk_eq dp (t1 ++ t2), add_chunk_eq dp t1]
  rw [show dp.buffer ++ (t1 ++ t2) = (dp.buffer ++ t1) ++ t2 from
    (List.append_assoc _ _ _).symm]
  rw [jsonSpans_append1 (dp.buffer ++ t1) t2, jsonSpans_append2 (dp.buffer ++ t1) t2]
  rw [processSpans_append]
  generalize (jsonSpans (dp.buffer ++ t1)).2 = R1
  generalize hN : processSpans dp (jsonSpans (dp.buffer ++ t1)).1 [] = N
  obtain ⟨n, o⟩ := N
  rw [add_chunk_eq { n with buffer := R1 } t2]
  simp only []
  rw [processSpans_buffer, processSpans_acc]
  simp
  rw [processSpans_buffer ((jsonSpans (R1 ++ t2)).1) n [] R1]
  simp

/-- Chunking invariance at the level of states and outputs: feeding any list
of chunks whose current buffer holds no complete span equals feeding their
concatenation in one call. -/
theorem processChunks_eq_single (chunks : List (List Char)) :
    ∀ dp : DataProcessor, (jsonSpans dp.buffer).1 = [] →
    processChunks dp chunks = add_chunk dp chunks.flatten := by
  induction chunks with
  | nil =>
    intro dp h
    show (dp, []) = add_chunk dp []
    rw [add_chunk_eq]
    rw [List.append_nil, h]
    simp only [processSpans]
    rw [jsonSpans_nil_rem h]
  | cons t ts ih =>
    intro dp h
    show ((processChunks (add_chunk dp t).1 ts).1,
          (add_chunk dp t).2 ++ (processChunks (add_chunk dp t).1 ts).2) = _
    rw [ih (add_chunk dp t).1 (add_chunk_buffer_nospans dp t)]
    rw [List.flatten_cons, add_chunk_append]

/-- Scanning brace-free text while outside a span just accumulates it. -/
theorem scan_braceFree (s : List Char) :
    ∀ (since : List Char) (spans : List (List Char)), BraceFree s →
    List.foldl scanStep ⟨none, since, spans⟩ s =
      ⟨none, s.reverse ++ since, spans⟩ := by
  induction s with
  | nil => intro since spans _; simp
  | cons c s ih =>
    intro since spans h
    have hc : ¬ c = '{' := (h c (by simp)).1
    simp only [List.foldl_cons, scanStep, hc, reduceIte]
    rw [ih (c :: since) spans (fun x hx => h x (by simp [hx]))]
    simp

/-- Scanning `}`-free text while inside a span accumulates it into the span. -/
theorem scan_inside (int : List Char) :
    ∀ (a since : List Char) (spans : List (List Char)), '}' ∉ int →
    List.foldl scanStep ⟨some a, since, spans⟩ int =
      ⟨some (int.reverse ++ a), int.reverse ++ since, spans⟩ := by
  induction int with
  | nil => intro a since spans _; simp
  | cons c int ih =>
    intro a since spans h
    have hc : ¬ c = '}' := by
      intro hcc
      exact h (by simp [hcc])
    simp only [List.foldl_cons, scanStep, hc, reduceIte]
    rw [ih (c :: a) (c :: since) spans (fun hx => h (by simp [hx]))]
    simp

/-- Scanning a whole span-shaped object from outside records exactly that
object as a completed span and resets the retained tail. -/
theorem scan_span (int since : List Char) (spans : List (List Char))
    (h : '}' ∉ int) :
    List.foldl scanStep ⟨none, since, spans⟩ ('{' :: (int ++ ['}'])) =
      ⟨none, [], ('{' :: (int ++ ['}'])) :: spans⟩ := by
  simp only [List.foldl_cons, scanStep, reduceIte]
  rw [List.foldl_append, scan_inside int ['{'] ('{' :: since) spans h]
  simp only [List.foldl_cons, List.foldl_nil, scanStep, reduceIte]
  simp

/-- Scanning brace-free separators interleaved with span-shaped objects
finds exactly the objects, in order. -/
theorem scanAll_joinSepsObjs :
    ∀ (objs seps : List (List Char)),
    seps.length = objs.length + 1 →
    (∀ s ∈ seps, BraceFree s) →
    (∀ o ∈ objs, SpanShaped o) →
    (scanAll (joinSepsObjs seps objs)).spans = objs.reverse ∧
    (scanAll (joinSepsObjs seps objs)).acc = none := by
  intro objs
  induction objs with
  | nil =>
    intro seps hlen hsep _
    cases seps with
    | nil => simp at hlen
    | cons s ss =>
      cases ss with
      | cons a b => simp at hlen
      | nil =>
        show (scanAll s).spans = [] ∧ (scanAll s).acc = none
        rw [show scanAll s = List.foldl scanStep ⟨none, [], []⟩ s from rfl]
        rw [scan_braceFree s [] [] (hsep s (by simp))]
        exact ⟨rfl, rfl⟩
  | cons o os ih =>
    intro seps hlen hsep hobj
    cases seps with
    | nil => simp at hlen
    | cons s ss =>
      obtain ⟨int, rfl, hint⟩ := hobj o (by simp)
      have hjoin : joinSepsObjs (s :: ss) (('{' :: (int ++ ['}'])) :: os) =
          s ++ (('{' :: (int ++ ['}'])) ++ joinSepsObjs ss os) := by
        show (s ++ ('{' :: (int ++ ['}']))) ++ joinSepsObjs ss os = _
        rw [List.append_assoc]
      rw [hjoin]
      rw [show scanAll (s ++ (('{' :: (int ++ ['}'])) ++ joinSepsObjs ss os)) =
        List.foldl scanStep scanInit
          (s ++ (('{' :: (int ++ ['}'])) ++ joinSepsObjs ss os)) from rfl]
      rw [List.foldl_append, List.foldl_append]
      rw [show (scanInit : ScanSt) = ⟨none, [], []⟩ from rfl]
      rw [scan_braceFree s [] [] (hsep s (by simp))]
      rw [scan_span int (s.reverse ++ []) [] hint]
      rw [foldl_scanStep_spans (joinSepsObjs ss os) none [] [('{' :: (int ++ ['}']))]]
      have hih := ih ss (by simpa using hlen)
        (fun x hx => hsep x (by simp [hx])) (fun x hx => hobj x (by simp [hx]))
      rw [show List.foldl scanStep ⟨none, [], []⟩ (joinSepsObjs ss os) =
        scanAll (joinSepsObjs ss os) from rfl]
      rw [hih.1]
      exact ⟨by simp, hih.2⟩

/-- Spans that each parse successfully filter-map to exactly their records. -/
theorem filterMap_parse_of_forall2 {objs : List (List Char)} {recs : List Dict}
    (h : List.Forall₂ (fun o r => parse_json o = some r) objs recs) :
    objs.filterMap parse_json = recs := by
  induction h with
  | nil => rfl
  | cons hp _ ih => simp [List.filterMap_cons, hp, ih]

/-- Whether a send succeeds depends only on the network outcome. -/
theorem send_telemetry_success (c : ThingsBoardClient) (data : Dict) (tmo : Nat)
    (outcome : HttpOutcome) (now : ℚ) :
    (send_telemetry c data tmo outcome now).2 = outcomeSuccess outcome := by
  cases outcome with
  | response status body =>
    by_cases h : respOk status <;> simp [send_telemetry, outcomeSuccess, h]
  | timeout => rfl
  | connError => rfl
  | otherError => rfl

/-- The record loop increments the running counter once per successful send. -/
theorem processRecords_count (rs : List RecordSend) :
    ∀ (rl : RateLimiter) (tb : ThingsBoardClient) (count : Nat),
    (processRecords rl tb count rs).2.2 =
      count + (rs.countP (fun r => outcomeSuccess r.env.outcome)) := by
  induction rs with
  | nil => intro rl tb count; simp [processRecords]
  | cons r rs ih =>
    intro rl tb count
    show (processRecords _ _ (if (send_telemetry tb r.data 8 r.env.outcome r.env.recvTime).2
        then count + 1 else count) rs).2.2 = _
    rw [send_telemetry_success]
    rw [ih]
    by_cases h : outcomeSuccess r.env.outcome
    · simp [List.countP_cons, h]
      omega
    · simp [List.countP_cons, h]

/-- `_parse_json` accepts a candidate exactly when `json.loads` yields a
non-empty object. -/
theorem parse_json_isSome (s : List Char) :
    (parse_json s).isSome ↔
      ∃ kvs, json_loads s = some (JsonValue.obj kvs) ∧ kvs ≠ [] := by
  simp only [parse_json]
  cases hj : json_loads s with
  | none => simp
  | some v =>
    cases v with
    | null => simp
    | bool b => simp
    | num l => simp
    | str t => simp
    | arr es => simp
    | obj kvs =>
      cases kvs with
      | nil => simp
      | cons k ks => simp

/-- Establish `BraceFree` for every member of a list by boolean evaluation. -/
theorem braceFree_all_of_all {seps : List (List Char)}
    (h : (seps.all fun s => s.all fun c => !(c == '{') && !(c == '}')) = true) :
    ∀ s ∈ seps, BraceFree s := by
  intro s hs c hc
  have h2 := List.all_eq_true.mp (List.all_eq_true.mp h s hs) c hc
  simp at h2
  exact h2

/-! ### Claim C1 -/

/-- C1 is false as stated: the single chunk `{"a":{"b":1}}` is one
syntactically valid non-empty JSON object with empty separators, but the
non-greedy brace matcher cuts the candidate at the inner `}`, the candidate
fails to parse, and the extractor emits no record at all. -/
theorem C1_counterexample : ¬ ClaimC1 := by
  intro h
  have h1 := h [chars ("\x7b\"a\":\x7b\"b\":1\x7d\x7d")] [[], []]
    [chars ("\x7b\"a\":\x7b\"b\":1\x7d\x7d")]
    [[(("a"), JsonValue.obj [(("b"), JsonValue.num ("1"))])]]
    rfl (braceFree_all_of_all (by decide))
    (List.Forall₂.cons rfl List.Forall₂.nil)
    (by decide)
  have h2 : (processChunks DataProcessor.init
      [chars ("\x7b\"a\":\x7b\"b\":1\x7d\x7d")]).2 = [] := rfl
  rw [h2] at h1
  exact absurd h1 (by simp)

/-- C1 (amended): chunking invariance holds when, in addition, each object's
text is itself a single candidate span — it starts with `{`, ends with `}`,
and contains no other `}` (this excludes nested objects and `\x7d` inside
string values, the spec's own documented limitation of non-greedy brace
matching).  For any split of such an input into chunks, a fresh extractor
emits exactly the N records, in order. -/
theorem C1_amended_chunking_invariance
    (chunks seps objs : List (List Char)) (recs : List Dict)
    (hlen : seps.length = objs.length + 1)
    (hsep : ∀ s ∈ seps, BraceFree s)
    (hshape : ∀ o ∈ objs, SpanShaped o)
    (hparse : List.Forall₂ (fun o r => parse_json o = some r) objs recs)
    (hjoin : chunks.flatten = joinSepsObjs seps objs) :
    (processChunks DataProcessor.init chunks).2 = recs := by
  rw [processChunks_eq_single chunks DataProcessor.init rfl, hjoin]
  rw [add_chunk_eq]
  have hspans : (jsonSpans (DataProcessor.init.buffer ++ joinSepsObjs seps objs)).1
      = objs := by
    show (scanAll ([] ++ joinSepsObjs seps objs)).spans.reverse = objs
    rw [List.nil_append, (scanAll_joinSepsObjs objs seps hlen hsep hshape).1]
    simp
  show (processSpans DataProcessor.init
    (jsonSpans (DataProcessor.init.buffer ++ joinSepsObjs seps objs)).1 []).2 = recs
  rw [hspans, (processSpans_spec objs DataProcessor.init).1]
  exact filterMap_parse_of_forall2 hparse

/-- Witness for the amended C1: the stream `x{"a":1}y{"b":2}` split so that
the second object straddles the chunk boundary yields exactly its two
records. -/
theorem C1_amended_witness :
    (processChunks DataProcessor.init
      [chars ("x\x7b\"a\":1\x7dy\x7b\"b"), chars ("\":2\x7d")]).2 =
      [[(("a"), JsonValue.num ("1"))], [(("b"), JsonValue.num ("2"))]] :=
  C1_amended_chunking_invariance
    [chars ("x\x7b\"a\":1\x7dy\x7b\"b"), chars ("\":2\x7d")]
    [chars ("x"), chars ("y"), []]
    [chars ("\x7b\"a\":1\x7d"), chars ("\x7b\"b\":2\x7d")]
    [[(("a"), JsonValue.num ("1"))], [(("b"), JsonValue.num ("2"))]]
    rfl (braceFree_all_of_all (by decide))
    (by
      intro o ho
      simp only [List.mem_cons, List.not_mem_nil, or_false] at ho
      rcases ho with rfl | rfl
      · exact ⟨chars ("\"a\":1"), rfl, by decide⟩
      · exact ⟨chars ("\"b\":2"), rfl, by decide⟩)
    (List.Forall₂.cons rfl (List.Forall₂.cons rfl List.Forall₂.nil))
    (by decide)

/-! ### Claim C2 -/

/-- C2 is false as stated: both exception handlers of `run_bridge` sit
outside the `while True:` loop, so an exception raised during a tick ends
the streaming loop instead of letting it continue — already visible with no
further events, where the loop reports `errored` instead of still running. -/
theorem C2_counterexample : ¬ ClaimC2 := by
  intro h
  have h1 := h
    { monitor := { last_text_length := 0, total_reads := 0 },
      processor := DataProcessor.init, limiter := RateLimiter.init 5,
      client := ThingsBoardClient.init, message_count := 0 } []
  have h2 : LoopExit.errored = LoopExit.running := congrArg Prod.snd h1
  exact LoopExit.noConfusion h2

/-- C2 (amended): an exception raised while processing a tick is caught by
the handler attached to the whole streaming loop — it does not propagate
(the loop returns a normal value, cleanup and a clean return follow), and
the state mutated so far is preserved — but streaming ends: the remaining
tick events are never processed and the loop exits as `errored`. -/
theorem C2_amended_exception_ends_loop (st : LoopState) (rest : List TickEvent) :
    run_loop st (TickEvent.raise :: rest) = (st, LoopExit.errored) := rfl

/-! ### Claim C3 -/

/-- C3 is false as stated: `run_bridge` never calls
`data_processor.clear_buffer()`.  With stale partial text `{"a"` in the
extractor buffer and a shrunken visible text `{"b":2}`, the claimed
clear-before-feed behaviour would parse one record, while the code appends
the new text to the stale buffer, producing a single malformed candidate
and zero records. -/
theorem C3_counterexample : ¬ ClaimC3 := by
  intro h
  have h1 := h
    { monitor := { last_text_length := 10, total_reads := 0 },
      processor := { buffer := chars ("\x7b\"a\""), total_received := 0,
                     total_parsed := 0, total_invalid := 0 },
      limiter := RateLimiter.init 5, client := ThingsBoardClient.init,
      message_count := 0 }
    { full_text := some (chars ("\x7b\"b\":2\x7d")),
      sends := [{ callTime := 1, outcome := HttpOutcome.response 200 (""), recvTime := 1 }] }
  exact absurd (congrArg (fun s => s.processor.total_parsed) h1) (by decide)

/-- C3 (amended): on a shrink tick the monitor resets its tracked length and
returns the entire visible text as the new chunk, and the extractor buffer
is NOT cleared: the full text is appended to whatever stale partial text the
buffer still holds, exactly as on any other tick. -/
theorem C3_amended_no_clear (st : LoopState) (inp : TickInput) (t : List Char)
    (hft : inp.full_text = some t)
    (hshrink : t.length < st.monitor.last_text_length)
    (hne : t ≠ []) :
    (tick st inp).monitor.last_text_length = t.length ∧
    (tick st inp).processor = (add_chunk st.processor t).1 := by
  have hread : get_new_content st.monitor inp.full_text =
      ({ last_text_length := t.length, total_reads := st.monitor.total_reads + 1 }, t) := by
    rw [hft]
    simp [get_new_content, hshrink]
  have hemp : t.isEmpty = false := by
    cases t with
    | nil => exact absurd rfl hne
    | cons a b => rfl
  simp only [tick, hread, hemp]
  exact ⟨rfl, rfl⟩

/-- Witness for the amended C3: a concrete shrink tick (tracked length 10,
new visible text of length 7) feeds the whole text into the uncleared buffer. -/
theorem C3_amended_witness :
    (tick
      { monitor := { last_text_length := 10, total_reads := 0 },
        processor := { buffer := chars ("\x7b\"a\""), total_received := 0,
                       total_parsed := 0, total_invalid := 0 },
        limiter := RateLimiter.init 5, client := ThingsBoardClient.init,
        message_count := 0 }
      { full_text := some (chars ("\x7b\"b\":2\x7d")), sends := [] }).monitor.last_text_length
      = (chars ("\x7b\"b\":2\x7d")).length ∧
    (tick
      { monitor := { last_text_length := 10, total_reads := 0 },
        processor := { buffer := chars ("\x7b\"a\""), total_received := 0,
                       total_parsed := 0, total_invalid := 0 },
        limiter := RateLimiter.init 5, client := ThingsBoardClient.init,
        message_count := 0 }
      { full_text := some (chars ("\x7b\"b\":2\x7d")), sends := [] }).processor =
      (add_chunk
        { buffer := chars ("\x7b\"a\""), total_received := 0,
          total_parsed := 0, total_invalid := 0 }
        (chars ("\x7b\"b\":2\x7d"))).1 :=
  C3_amended_no_clear
    { monitor := { last_text_length := 10, total_reads := 0 },
      processor := { buffer := chars ("\x7b\"a\""), total_received := 0,
                     total_parsed := 0, total_invalid := 0 },
      limiter := RateLimiter.init 5, client := ThingsBoardClient.init,
      message_count := 0 }
    { full_text := some (chars ("\x7b\"b\":2\x7d")), sends := [] }
    (chars ("\x7b\"b\":2\x7d")) rfl (by decide) (by decide)

/-! ### Claim C4 -/

/-- C4 (confirmed): after `add_chunk`, when no candidate span matched the
buffer is the whole of (old buffer + chunk) and nothing is returned; when at
least one span matched, (old buffer + chunk) splits as (text up to the last
span) ++ (last span) ++ (new buffer), so the new buffer is exactly the
suffix strictly after the end of the last candidate span and retains no
consumed text. -/
theorem C4_buffer_postcondition (dp : DataProcessor) (text : List Char) :
    ((jsonSpans (dp.buffer ++ text)).1 = [] →
      (add_chunk dp text).1.buffer = dp.buffer ++ text ∧ (add_chunk dp text).2 = []) ∧
    (∀ (pre : List (List Char)) (lastSpan : List Char),
      (jsonSpans (dp.buffer ++ text)).1 = pre ++ [lastSpan] →
      ∃ A, dp.buffer ++ text = A ++ lastSpan ++ (add_chunk dp text).1.buffer) := by
  constructor
  · intro h
    rw [add_chunk_eq]
    refine ⟨?_, ?_⟩
    · show (jsonSpans (dp.buffer ++ text)).2 = dp.buffer ++ text
      exact jsonSpans_nil_rem h
    · show (processSpans dp (jsonSpans (dp.buffer ++ text)).1 []).2 = []
      rw [h]
      rfl
  · intro pre lastSpan h
    rw [add_chunk_eq]
    exact jsonSpans_last_decomp h

/-- Witness for C4: on the buffer `x{"a":1}tail` the single span `{"a":1}`
is consumed and the retained buffer is the suffix after it. -/
theorem C4_witness :
    ∃ A, DataProcessor.init.buffer ++ chars ("x\x7b\"a\":1\x7dtail") =
      A ++ chars ("\x7b\"a\":1\x7d") ++
      (add_chunk DataProcessor.init (chars ("x\x7b\"a\":1\x7dtail"))).1.buffer :=
  (C4_buffer_postcondition DataProcessor.init (chars ("x\x7b\"a\":1\x7dtail"))).2
    [] (chars ("\x7b\"a\":1\x7d")) (by decide)

/-! ### Claim C5 -/

/-- C5 (confirmed): in every `add_chunk` call, `total_received` grows by one
per candidate span; the returned records are exactly the spans accepted by
`_parse_json`, in order; `total_parsed` grows by the number of accepted
spans and `total_invalid` by the number of rejected ones; and a candidate is
accepted exactly when `json.loads` yields an object with at least one key
(every other case — parse failure, non-object, empty object — is rejected
without any exception escaping, `_parse_json` being total). -/
theorem C5_candidate_classification (dp : DataProcessor) (text : List Char) :
    (add_chunk dp text).1.total_received =
      dp.total_received + (jsonSpans (dp.buffer ++ text)).1.length ∧
    (add_chunk dp text).2 = (jsonSpans (dp.buffer ++ text)).1.filterMap parse_json ∧
    (add_chunk dp text).1.total_parsed = dp.total_parsed + (add_chunk dp text).2.length ∧
    (add_chunk dp text).1.total_invalid = dp.total_invalid +
      ((jsonSpans (dp.buffer ++ text)).1.length - (add_chunk dp text).2.length) ∧
    (∀ s : List Char, (parse_json s).isSome ↔
      ∃ kvs, json_loads s = some (JsonValue.obj kvs) ∧ kvs ≠ []) := by
  obtain ⟨h1, h2, h3, h4, _⟩ := processSpans_spec (jsonSpans (dp.buffer ++ text)).1 dp
  rw [add_chunk_eq]
  exact ⟨h2, h1, by rw [h1, h3], by rw [h1, h4], parse_json_isSome⟩

/-! ### Claim C6 -/

/-- C6's divergence evaluated: `send_telemetry` decides success with
`response.ok`, which is true for every status below 400, not only 2xx.  A
final 304 response therefore returns `true` and increments the sent counter,
where the claim (and the method's own docstring, "True if successful (2xx
response)") require `false` and a failed-count increment. -/
theorem C6_send_at_304 :
    send_telemetry ThingsBoardClient.init [] 8
        (HttpOutcome.response 304 ("Not Modified")) 5 =
      ({ total_sent := 1, total_failed := 0, last_send_time := some 5 }, true) := rfl

/-! ### Claim C7 -/

/-- C7 is false as stated: the `message_count` of `run_bridge` is
incremented inside `if success:`, so a failed delivery attempt (here a
timeout on the single record of a tick) leaves the counter unchanged
instead of counting the attempt. -/
theorem C7_counterexample : ¬ ClaimC7 := by
  intro h
  have h1 := h (RateLimiter.init 5) ThingsBoardClient.init 0
    [{ data := [], env := { callTime := 0, outcome := HttpOutcome.timeout, recvTime := 0 } }]
  exact absurd h1 (by decide)

/-- C7 (amended): for each record the loop throttles and then attempts
delivery, but the running sent-message counter grows by one only for the
attempts whose send succeeded. -/
theorem C7_amended_count_success_only (rl : RateLimiter) (tb : ThingsBoardClient)
    (count : Nat) (rs : List RecordSend) :
    (processRecords rl tb count rs).2.2 =
      count + rs.countP (fun r => outcomeSuccess r.env.outcome) :=
  processRecords_count rs rl tb count

/-! ### Claim C8 -/

/-- C8 is false as stated: `send_telemetry` stores `datetime.now()` into
`last_send_time` before inspecting `response.ok`, so a failing non-2xx
response (here a 500) updates the stored timestamp instead of leaving it
unchanged. -/
theorem C8_counterexample : ¬ ClaimC8 := by
  intro h
  have h1 := (h ThingsBoardClient.init [] 8 (HttpOutcome.response 500 ("")) 3).2 rfl
  exact absurd h1 (by decide)

/-- C8 (amended): the stored last-send timestamp is updated to the current
time whenever an HTTP response is received — regardless of its status, so
also on non-2xx failures — and is left unchanged exactly when the attempt
produced no response (timeout, connection error, or other exception). -/
theorem C8_amended_timestamp (c : ThingsBoardClient) (data : Dict) (tmo : Nat) (now : ℚ) :
    (∀ status body, (send_telemetry c data tmo
        (HttpOutcome.response status body) now).1.last_send_time = some now) ∧
    (send_telemetry c data tmo HttpOutcome.timeout now).1.last_send_time
      = c.last_send_time ∧
    (send_telemetry c data tmo HttpOutcome.connError now).1.last_send_time
      = c.last_send_time ∧
    (send_telemetry c data tmo HttpOutcome.otherError now).1.last_send_time
      = c.last_send_time := by
  refine ⟨?_, rfl, rfl, rfl⟩
  intro status body
  by_cases h : respOk status <;> simp [send_telemetry, h]

/-! ### Claim C9 -/

/-- C9 (confirmed, under the exact-sleep clock model): with
`min_interval = 1/max_hz` for `max_hz > 0`, `wait_if_needed` sleeps exactly
`max 0 (min_interval - elapsed)` where `elapsed` is measured from the end of
the previous call; it stores its completion time as the new `last_send_time`;
consecutive completions are therefore at least `min_interval` apart; and the
first call of a fresh limiter (stored time 0) returns without sleeping
whenever the wall clock reads at least `1/max_hz` (true of any realistic
`time.time()` value). -/
theorem C9_rate_limiter_spec (max_hz : ℚ) (_hpos : 0 < max_hz)
    (rl : RateLimiter) (hmin : rl.min_interval = 1 / max_hz) (now : ℚ) :
    (wait_if_needed rl now).2 = max 0 (rl.min_interval - (now - rl.last_send_time)) ∧
    (wait_if_needed rl now).1.last_send_time = now + (wait_if_needed rl now).2 ∧
    (wait_if_needed rl now).1.min_interval = rl.min_interval ∧
    rl.last_send_time + rl.min_interval ≤ (wait_if_needed rl now).1.last_send_time ∧
    (rl.last_send_time = 0 → 1 / max_hz ≤ now → (wait_if_needed rl now).2 = 0) := by
  have hsl : (wait_if_needed rl now).2 =
      if rl.min_interval - (now - rl.last_send_time) > 0 then
        rl.min_interval - (now - rl.last_send_time) else 0 := rfl
  have hlast : (wait_if_needed rl now).1.last_send_time =
      now + (wait_if_needed rl now).2 := rfl
  refine ⟨?_, hlast, rfl, ?_, ?_⟩
  · rw [hsl]
    rcases le_or_lt (rl.min_interval - (now - rl.last_send_time)) 0 with hle | hlt
    · rw [if_neg (not_lt.mpr hle), max_eq_left hle]
    · rw [if_pos hlt, max_eq_right (le_of_lt hlt)]
  · rw [hlast, hsl]
    rcases le_or_lt (rl.min_interval - (now - rl.last_send_time)) 0 with hle | hlt
    · rw [if_neg (not_lt.mpr hle)]
      linarith
    · rw [if_pos hlt]
      linarith
  · intro hzero hnow
    rw [hsl, hmin, hzero]
    rw [if_neg (by linarith)]

/-- Witness for C9: a fresh limiter at 5 Hz polled at clock time 100. -/
theorem C9_witness :
    (0 : ℚ) < 5 ∧ (RateLimiter.init 5).min_interval = 1 / 5 ∧
    ((wait_if_needed (RateLimiter.init 5) 100).2 =
        max 0 ((RateLimiter.init 5).min_interval -
          (100 - (RateLimiter.init 5).last_send_time)) ∧
      (wait_if_needed (RateLimiter.init 5) 100).1.last_send_time =
        100 + (wait_if_needed (RateLimiter.init 5) 100).2 ∧
      (wait_if_needed (RateLimiter.init 5) 100).1.min_interval =
        (RateLimiter.init 5).min_interval ∧
      (RateLimiter.init 5).last_send_time + (RateLimiter.init 5).min_interval ≤
        (wait_if_needed (RateLimiter.init 5) 100).1.last_send_time ∧
      ((RateLimiter.init 5).last_send_time = 0 → 1 / 5 ≤ (100 : ℚ) →
        (wait_if_needed (RateLimiter.init 5) 100).2 = 0)) :=
  ⟨by norm_num, rfl,
    C9_rate_limiter_spec 5 (by norm_num) (RateLimiter.init 5) rfl 100⟩

/-! ### Claim C10 -/

/-- C10 is false as stated: for received=10, parsed=7 the code reports
`parse_rate = 7/10*100 = 70`, not the claimed ratio `parsed/received = 0.7`
(the spec's own example value 70.0 matches the code, not the claimed
formula). -/
theorem C10_counterexample : ¬ ClaimC10 := by
  intro h
  have h1 := h { buffer := [], total_received := 10, total_parsed := 7,
                 total_invalid := 3 }
  have h70 : (get_stats
      { buffer := [], total_received := 10, total_parsed := 7,
        total_invalid := 3 }).parse_rate = 70 := by
    norm_num [get_stats]
  rw [h70] at h1
  norm_num at h1

/-- C10 (amended): `get_stats` is a pure function of the state reporting
received, parsed, invalid and the current buffer size, with
`parse_rate = parsed/received × 100` (a percentage) when received > 0 and 0
otherwise; in particular received=10, parsed=7 yields 70.0, the spec's own
example. -/
theorem C10_amended_stats (dp : DataProcessor) :
    (get_stats dp).total_received = dp.total_received ∧
    (get_stats dp).total_parsed = dp.total_parsed ∧
    (get_stats dp).total_invalid = dp.total_invalid ∧
    (get_stats dp).buffer_size = dp.buffer.length ∧
    (dp.total_received = 0 → (get_stats dp).parse_rate = 0) ∧
    (0 < dp.total_received → (get_stats dp).parse_rate =
      (dp.total_parsed : ℚ) / (dp.total_received : ℚ) * 100) ∧
    (dp.total_received = 10 → dp.total_parsed = 7 → (get_stats dp).parse_rate = 70) := by
  refine ⟨rfl, rfl, rfl, rfl, ?_, ?_, ?_⟩
  · intro h
    simp [get_stats, h]
  · intro h
    simp [get_stats, h]
  · intro h1 h2
    simp [get_stats, h1, h2]
    norm_num

/-- Witness for the amended C10: the spec's own example instance. -/
theorem C10_amended_witness :
    (get_stats
      { buffer := [], total_received := 10, total_parsed := 7,
        total_invalid := 3 }).parse_rate = 70 :=
  (C10_amended_stats
    { buffer := [], total_received := 10, total_parsed := 7,
      total_invalid := 3 }).2.2.2.2.2.2 rfl rfl

/-! ### Sanity checks: the spec's section 8 test vectors, evaluated -/

example :
    (add_chunk DataProcessor.init (chars ("\x7b\"a\":1\x7d\x7b\"b\":2\x7d"))).2 =
      [[(("a"), JsonValue.num ("1"))], [(("b"), JsonValue.num ("2"))]] ∧
    (add_chunk DataProcessor.init (chars ("\x7b\"a\":1\x7d\x7b\"b\":2\x7d"))).1.buffer
      = [] := ⟨rfl, rfl⟩

example :
    (add_chunk DataProcessor.init (chars ("no braces here"))).2 = [] ∧
    (add_chunk DataProcessor.init (chars ("no braces here"))).1.buffer =
      chars ("no braces here") := ⟨rfl, rfl⟩

example :
    (add_chunk DataProcessor.init (chars ("\x7b\x7d"))).2 = [] ∧
    (add_chunk DataProcessor.init (chars ("\x7b\x7d"))).1.total_invalid = 1 := ⟨rfl, rfl⟩

example :
    (add_chunk (add_chunk DataProcessor.init (chars ("\x7b\"a\":1\x7d\x7b\"b"))).1
      (chars ("\":2\x7d"))).2 = [[(("b"), JsonValue.num ("2"))]] := rfl

example : (clear_buffer
    { buffer := chars ("partial"), total_received := 4, total_parsed := 2,
      total_invalid := 2 }).buffer = [] := rfl

end Bridge
